import Mathlib

/-!
Verification of the Linkbus serial protocol engine
(WB8WFK ARDF Foxoring Transmitter, `src/Arduino-microfox/linkbus.h`).

Constants, message-identifier encodings and buffer types are embedded
directly from `linkbus.h`.  The frame parsing state machine, buffer-pool
lifecycle, message decoder and transmit scheduler are declared in the
header but their implementation file is not part of the sources; those
operations are modelled from the specification's component design
(spec sections 4.1-4.4), as noted on each definition.
-/

namespace Linkbus

/-! ## Capacity constants, from linkbus.h lines 33-45 -/

def LINKBUS_MAX_MSG_LENGTH : Nat := 50
def LINKBUS_MIN_MSG_LENGTH : Nat := 2
def LINKBUS_MAX_MSG_FIELD_LENGTH : Nat := 10
def LINKBUS_MAX_MSG_NUMBER_OF_FIELDS : Nat := 3
def LINKBUS_NUMBER_OF_RX_MSG_BUFFERS : Nat := 2
def LINKBUS_MAX_TX_MSG_LENGTH : Nat := 41
def LINKBUS_NUMBER_OF_TX_MSG_BUFFERS : Nat := 4

def LINKBUS_MAX_COMMANDLINE_LENGTH : Nat :=
  (1 + LINKBUS_MAX_MSG_FIELD_LENGTH) * LINKBUS_MAX_MSG_NUMBER_OF_FIELDS

def LINKBUS_MIN_TX_INTERVAL_MS : Nat := 100

def UINT16_MAX : Nat := 65535

/-! ## Message identifier encoding, from the LBMessageID enum (linkbus.h lines 90-111).
Each enumerator's value is character arithmetic on the mnemonic:
three letters encode as a*100 + b*10 + c, two letters as a*10 + b. -/

def encode3 (a b c : Char) : Nat := a.toNat * 100 + b.toNat * 10 + c.toNat

def encode2 (a b : Char) : Nat := a.toNat * 10 + b.toNat

def MESSAGE_EMPTY : Nat := 0
def MESSAGE_CLOCK_CAL : Nat := encode3 'C' 'A' 'L'
def MESSAGE_FACTORY_RESET : Nat := encode3 'F' 'A' 'C'
def MESSAGE_OVERRIDE_DIP : Nat := encode3 'D' 'I' 'P'
def MESSAGE_LEDS : Nat := encode3 'L' 'E' 'D'
def MESSAGE_TEMP : Nat := encode3 'T' 'E' 'M'
def MESSAGE_SET_STATION_ID : Nat := encode2 'I' 'D'
def MESSAGE_GO : Nat := encode2 'G' 'O'
def MESSAGE_CODE_SPEED : Nat := encode3 'S' 'P' 'D'
def MESSAGE_STARTTONES_ENABLE : Nat := encode3 'S' 'T' 'A'
def MESSAGE_TRANSMITTER_ENABLE : Nat := encode3 'T' 'X' 'E'
def MESSAGE_RESET : Nat := encode3 'R' 'S' 'T'
def MESSAGE_VERSION : Nat := encode3 'V' 'E' 'R'
def INVALID_MESSAGE : Nat := UINT16_MAX

/-- The values of the LBMessageID enum other than MESSAGE_EMPTY and the
INVALID_MESSAGE sentinel, in declaration order. -/
def validMessageIDs : List Nat :=
  [MESSAGE_CLOCK_CAL, MESSAGE_FACTORY_RESET, MESSAGE_OVERRIDE_DIP, MESSAGE_LEDS,
   MESSAGE_TEMP, MESSAGE_SET_STATION_ID, MESSAGE_GO, MESSAGE_CODE_SPEED,
   MESSAGE_STARTTONES_ENABLE, MESSAGE_TRANSMITTER_ENABLE, MESSAGE_RESET,
   MESSAGE_VERSION]

/-- The fixed mnemonic-to-identifier mapping realized by the LBMessageID enum:
each mnemonic paired with the enum value its characters encode to. -/
def mnemonicIds : List (List Char × Nat) :=
  [(['C', 'A', 'L'], MESSAGE_CLOCK_CAL),
   (['F', 'A', 'C'], MESSAGE_FACTORY_RESET),
   (['D', 'I', 'P'], MESSAGE_OVERRIDE_DIP),
   (['L', 'E', 'D'], MESSAGE_LEDS),
   (['T', 'E', 'M'], MESSAGE_TEMP),
   (['I', 'D'], MESSAGE_SET_STATION_ID),
   (['G', 'O'], MESSAGE_GO),
   (['S', 'P', 'D'], MESSAGE_CODE_SPEED),
   (['S', 'T', 'A'], MESSAGE_STARTTONES_ENABLE),
   (['T', 'X', 'E'], MESSAGE_TRANSMITTER_ENABLE),
   (['R', 'S', 'T'], MESSAGE_RESET),
   (['V', 'E', 'R'], MESSAGE_VERSION)]

/-- A character is an uppercase ASCII letter, the legal alphabet for
mnemonics (spec section 6: id ::= 2-3 uppercase letters). -/
def isUpperAZ (c : Char) : Prop := 65 ≤ c.toNat ∧ c.toNat ≤ 90

instance (c : Char) : Decidable (isUpperAZ c) := by
  unfold isUpperAZ; infer_instance

/-- Encoding of a whole mnemonic: defined exactly for 2- and 3-letter words. -/
def encodeMnemonic : List Char → Option Nat
  | [a, b] => some (encode2 a b)
  | [a, b, c] => some (encode3 a b c)
  | _ => none

/-! ## Message type and buffer types, from linkbus.h lines 113-153 -/

inductive LBMessageType where
  | LINKBUS_MSG_UNKNOWN
  | LINKBUS_MSG_COMMAND
  | LINKBUS_MSG_QUERY
  | LINKBUS_MSG_REPLY
  | LINKBUS_MSG_INVALID
deriving DecidableEq, Repr

inductive BufferState where
  | EMPTY_BUFF
  | FULL_BUFF
deriving DecidableEq, Repr

/-- typedef char LinkbusTxBuffer[LINKBUS_MAX_TX_MSG_LENGTH]; -/
def LinkbusTxBuffer := Fin LINKBUS_MAX_TX_MSG_LENGTH → Char

/-- The LinkbusRxBuffer struct: a message type, a message id, and a
char fields[LINKBUS_MAX_MSG_NUMBER_OF_FIELDS][LINKBUS_MAX_MSG_FIELD_LENGTH]
array. -/
structure LinkbusRxBuffer where
  type : LBMessageType
  id : Nat
  fields : Fin LINKBUS_MAX_MSG_NUMBER_OF_FIELDS → Fin LINKBUS_MAX_MSG_FIELD_LENGTH → Char

/-! ## Claims C4, C5, C9, C10: identifier encoding and constants -/

/-- C4: the encoding of every 2- or 3-letter uppercase mnemonic is different
from the sentinel INVALID_MESSAGE = UINT16_MAX, so the Invalid identifier
value never collides with a real (encodable) message identifier. -/
theorem c4_sentinel_unreachable :
    INVALID_MESSAGE = 65535 ∧
    (∀ a b : Char, isUpperAZ a → isUpperAZ b →
      encode2 a b ≠ INVALID_MESSAGE) ∧
    (∀ a b c : Char, isUpperAZ a → isUpperAZ b → isUpperAZ c →
      encode3 a b c ≠ INVALID_MESSAGE) := by
  refine ⟨rfl, ?_, ?_⟩
  · intro a b ⟨_, ha⟩ ⟨_, hb⟩
    show a.toNat * 10 + b.toNat ≠ 65535
    omega
  · intro a b c ⟨_, ha⟩ ⟨_, hb⟩ ⟨_, hc⟩
    show a.toNat * 100 + b.toNat * 10 + c.toNat ≠ 65535
    omega

/-- Witness for C4 at the concrete mnemonics ID and CAL. -/
theorem c4_sentinel_unreachable_witness :
    encode2 'I' 'D' ≠ INVALID_MESSAGE ∧ encode3 'C' 'A' 'L' ≠ INVALID_MESSAGE :=
  ⟨c4_sentinel_unreachable.2.1 'I' 'D' (by decide) (by decide),
   c4_sentinel_unreachable.2.2 'C' 'A' 'L' (by decide) (by decide) (by decide)⟩

/-- C5 counterexample: the compact encoding is NOT injective on all 2-3
letter uppercase mnemonics: the distinct uppercase mnemonics AZA and BPA
encode to the same integer (7465). -/
theorem c5_encoding_not_injective_cex :
    encodeMnemonic ['A', 'Z', 'A'] = encodeMnemonic ['B', 'P', 'A'] ∧
    encode3 'A' 'Z' 'A' = encode3 'B' 'P' 'A' ∧
    (['A', 'Z', 'A'] : List Char) ≠ ['B', 'P', 'A'] ∧
    isUpperAZ 'A' ∧ isUpperAZ 'Z' ∧ isUpperAZ 'B' ∧ isUpperAZ 'P' := by
  refine ⟨by decide, by decide, by decide, by decide, by decide, by decide, by decide⟩

/-- C5 (amended): the encoding is injective on the fixed mapping: the twelve
mnemonics CAL, FAC, DIP, LED, TEM, ID, GO, SPD, STA, TXE, RST, VER encode to
pairwise distinct integers, and each table entry's value is exactly the
encoding of its mnemonic. -/
theorem c5_table_encodings_distinct :
    (mnemonicIds.map Prod.snd).Nodup ∧
    ∀ p ∈ mnemonicIds, encodeMnemonic p.1 = some p.2 := by
  refine ⟨by decide, by decide⟩

/-- Witness for C5 (amended) at the concrete table entry CAL. -/
theorem c5_table_encodings_distinct_witness :
    encodeMnemonic ['C', 'A', 'L'] = some MESSAGE_CLOCK_CAL :=
  c5_table_encodings_distinct.2 (['C', 'A', 'L'], MESSAGE_CLOCK_CAL) (by decide)

/-- C9: the capacity constants have exactly the stated values, and the
LinkbusRxBuffer type holds a message type, an id, and exactly 3 fields of
10 characters each. -/
theorem c9_capacity_constants :
    LINKBUS_MAX_MSG_LENGTH = 50 ∧
    LINKBUS_MIN_MSG_LENGTH = 2 ∧
    LINKBUS_MAX_MSG_FIELD_LENGTH = 10 ∧
    LINKBUS_MAX_MSG_NUMBER_OF_FIELDS = 3 ∧
    LINKBUS_NUMBER_OF_RX_MSG_BUFFERS = 2 ∧
    LINKBUS_NUMBER_OF_TX_MSG_BUFFERS = 4 ∧
    LINKBUS_MAX_TX_MSG_LENGTH = 41 ∧
    LINKBUS_MAX_COMMANDLINE_LENGTH = (1 + 10) * 3 ∧
    LINKBUS_MAX_COMMANDLINE_LENGTH = 33 ∧
    Nonempty (LinkbusRxBuffer ≃ LBMessageType × Nat × (Fin 3 → Fin 10 → Char)) := by
  refine ⟨rfl, rfl, rfl, rfl, rfl, rfl, rfl, rfl, rfl, ⟨?_⟩⟩
  exact
    { toFun := fun b => (b.type, b.id, b.fields)
      invFun := fun p => ⟨p.1, p.2.1, p.2.2⟩
      left_inv := fun b => rfl
      right_inv := fun p => rfl }

/-- C10: MESSAGE_EMPTY = 0 is below the encoding of every legal uppercase
mnemonic; the smallest legal encoding is that of AA, namely 715, so an
empty-marked slot can never be mistaken for a decoded message. -/
theorem c10_empty_marker_distinct :
    MESSAGE_EMPTY = 0 ∧
    encode2 'A' 'A' = 715 ∧
    (∀ a b : Char, isUpperAZ a → isUpperAZ b →
      715 ≤ encode2 a b ∧ encode2 a b ≠ MESSAGE_EMPTY) ∧
    (∀ a b c : Char, isUpperAZ a → isUpperAZ b → isUpperAZ c →
      715 ≤ encode3 a b c ∧ encode3 a b c ≠ MESSAGE_EMPTY) := by
  refine ⟨rfl, by decide, ?_, ?_⟩
  · intro a b ⟨ha, _⟩ ⟨hb, _⟩
    simp only [encode2, MESSAGE_EMPTY]
    omega
  · intro a b c ⟨ha, _⟩ ⟨hb, _⟩ ⟨hc, _⟩
    simp only [encode3, MESSAGE_EMPTY]
    omega

/-- Witness for C10 at the concrete mnemonics GO and CAL. -/
theorem c10_empty_marker_distinct_witness :
    encode2 'G' 'O' ≠ MESSAGE_EMPTY ∧ encode3 'C' 'A' 'L' ≠ MESSAGE_EMPTY :=
  ⟨(c10_empty_marker_distinct.2.2.1 'G' 'O' (by decide) (by decide)).2,
   (c10_empty_marker_distinct.2.2.2 'C' 'A' 'L' (by decide) (by decide) (by decide)).2⟩

/-! ## Frame Parser.
Modelled from the spec: the linkbus.c implementation file is not among the
sources (only the linkbus.h declarations); the byte-at-a-time framing state
machine below follows spec section 4.2 literally — `$`/`!` while Idle starts
accumulation recording the sigil, a new sigil while Accumulating restarts
(last-sigil-wins), `;`/`?` completes the line, backspace removes the last
accumulated character, and a byte that would push the commandline past
LINKBUS_MAX_COMMANDLINE_LENGTH forces an Invalid outcome and a return to
Idle. -/

inductive FrameState where
  | idle
  | acc (sigil : Char) (buf : List Char)
deriving DecidableEq, Repr

inductive FrameOut where
  | completed (sigil : Char) (line : List Char) (term : Char)
  | invalid
deriving DecidableEq, Repr

def BACKSPACE : Char := Char.ofNat 8

/-- Modelled from the spec: one byte-step of the Frame Parser (section 4.2). -/
def frameStep (st : FrameState) (c : Char) : FrameState × Option FrameOut :=
  match st with
  | .idle => if c = '$' ∨ c = '!' then (.acc c [], none) else (.idle, none)
  | .acc s buf =>
    if c = '$' ∨ c = '!' then (.acc c [], none)
    else if c = ';' ∨ c = '?' then (.idle, some (.completed s buf c))
    else if c = BACKSPACE then (.acc s buf.dropLast, none)
    else if LINKBUS_MAX_COMMANDLINE_LENGTH ≤ buf.length then (.idle, some .invalid)
    else (.acc s (buf ++ [c]), none)

/-- Modelled from the spec: feed a byte sequence through the Frame Parser,
collecting the emitted outcomes in order. -/
def frameRun : FrameState → List Char → FrameState × List FrameOut
  | st, [] => (st, [])
  | st, c :: cs =>
    ((frameRun (frameStep st c).1 cs).1,
     (frameStep st c).2.toList ++ (frameRun (frameStep st c).1 cs).2)

/-- Length of the accumulated commandline in a parser state. -/
def bufLen : FrameState → Nat
  | .idle => 0
  | .acc _ b => b.length

/-- An ordinary data byte: not a sigil, not a terminator, not backspace. -/
def ordinaryByte (c : Char) : Prop :=
  c ≠ '$' ∧ c ≠ '!' ∧ c ≠ ';' ∧ c ≠ '?' ∧ c ≠ BACKSPACE

instance (c : Char) : Decidable (ordinaryByte c) := by
  unfold ordinaryByte; infer_instance

lemma frameStep_idle (c : Char) :
    frameStep .idle c =
      (if c = '$' ∨ c = '!' then (.acc c [], none) else (.idle, none)) := rfl

lemma frameStep_acc (s : Char) (buf : List Char) (c : Char) :
    frameStep (.acc s buf) c =
      (if c = '$' ∨ c = '!' then (.acc c [], none)
       else if c = ';' ∨ c = '?' then (.idle, some (.completed s buf c))
       else if c = BACKSPACE then (.acc s buf.dropLast, none)
       else if LINKBUS_MAX_COMMANDLINE_LENGTH ≤ buf.length then
         (.idle, some .invalid)
       else (.acc s (buf ++ [c]), none)) := rfl

lemma frameRun_nil (st : FrameState) : frameRun st [] = (st, []) := rfl

lemma frameRun_cons (st : FrameState) (c : Char) (cs : List Char) :
    frameRun st (c :: cs) =
      ((frameRun (frameStep st c).1 cs).1,
       (frameStep st c).2.toList ++ (frameRun (frameStep st c).1 cs).2) := rfl

lemma frameStep_bufLen (st : FrameState) (c : Char) (h : bufLen st ≤ 33) :
    bufLen (frameStep st c).1 ≤ 33 := by
  have h33 : LINKBUS_MAX_COMMANDLINE_LENGTH = 33 := rfl
  cases st with
  | idle =>
    rw [frameStep_idle]
    split <;> simp [bufLen]
  | acc s buf =>
    rw [frameStep_acc]
    simp only [h33]
    split
    · simp [bufLen]
    · split
      · simp [bufLen]
      · split
        · simp only [bufLen] at h ⊢
          have := List.length_dropLast buf
          omega
        · split
          · simp [bufLen]
          · rename_i hlen
            simp only [not_le] at hlen
            simp only [bufLen] at h ⊢
            rw [List.length_append]
            simp
            omega

lemma frameRun_bufLen (cs : List Char) : ∀ st : FrameState, bufLen st ≤ 33 →
    bufLen (frameRun st cs).1 ≤ 33 := by
  induction cs with
  | nil => intro st h; simpa [frameRun] using h
  | cons c cs ih =>
    intro st h
    simpa [frameRun] using ih (frameStep st c).1 (frameStep_bufLen st c h)

lemma frameRun_append (xs ys : List Char) : ∀ st : FrameState,
    frameRun st (xs ++ ys) =
      ((frameRun (frameRun st xs).1 ys).1,
       (frameRun st xs).2 ++ (frameRun (frameRun st xs).1 ys).2) := by
  induction xs with
  | nil => intro st; simp [frameRun]
  | cons x xs ih =>
    intro st
    simp [frameRun, ih (frameStep st x).1, List.append_assoc]

lemma frameStep_ordinary (s : Char) (buf : List Char) (c : Char)
    (hc : ordinaryByte c) (hlen : buf.length < 33) :
    frameStep (.acc s buf) c = (.acc s (buf ++ [c]), none) := by
  obtain ⟨h1, h2, h3, h4, h5⟩ := hc
  have h33 : LINKBUS_MAX_COMMANDLINE_LENGTH = 33 := rfl
  rw [frameStep_acc, if_neg (by tauto), if_neg (by tauto), if_neg h5,
    if_neg (by rw [h33]; omega)]

lemma frameRun_acc_fill (cs : List Char) : ∀ (s : Char) (buf : List Char),
    (∀ c ∈ cs, ordinaryByte c) → buf.length + cs.length ≤ 33 →
    frameRun (.acc s buf) cs = (.acc s (buf ++ cs), []) := by
  induction cs with
  | nil => intro s buf _ _; simp [frameRun]
  | cons c cs ih =>
    intro s buf hord hlen
    have hc : ordinaryByte c := hord c (List.mem_cons_self c cs)
    have hstep := frameStep_ordinary s buf c hc (by simp at hlen; omega)
    have hrest := ih s (buf ++ [c])
      (fun c' hc' => hord c' (List.mem_cons_of_mem c hc'))
      (by simp at hlen ⊢; omega)
    simp [frameRun, hstep, hrest]

lemma frameRun_idle_skip (cs : List Char)
    (h : ∀ c ∈ cs, c ≠ '$' ∧ c ≠ '!') :
    frameRun .idle cs = (.idle, []) := by
  induction cs with
  | nil => simp [frameRun]
  | cons c cs ih =>
    have hc := h c (List.mem_cons_self c cs)
    have hstep : frameStep .idle c = (.idle, none) := by
      rw [frameStep_idle, if_neg (by tauto)]
    simp [frameRun, hstep, ih (fun c' hc' => h c' (List.mem_cons_of_mem c hc'))]

/-- C1: the Frame Parser never overflows the commandline buffer: for every
input byte sequence the accumulated commandline stays within
LINKBUS_MAX_COMMANDLINE_LENGTH = 33 characters, and feeding more than 33
ordinary characters after a sigil without a terminator yields exactly one
Invalid (discarded) outcome with the parser returned to Idle — no buffer
write past capacity and no partial message surfaced. -/
theorem c1_commandline_never_overflows :
    (∀ cs : List Char,
      bufLen (frameRun .idle cs).1 ≤ LINKBUS_MAX_COMMANDLINE_LENGTH) ∧
    (∀ cs : List Char, (∀ c ∈ cs, ordinaryByte c) →
      LINKBUS_MAX_COMMANDLINE_LENGTH < cs.length →
      frameRun .idle ('$' :: cs) = (.idle, [.invalid])) := by
  have h33 : LINKBUS_MAX_COMMANDLINE_LENGTH = 33 := rfl
  constructor
  · intro cs
    rw [h33]
    exact frameRun_bufLen cs .idle (by simp [bufLen])
  · intro cs hord hlen
    rw [h33] at hlen
    -- split cs into the first 33 bytes, the overflowing byte, and the rest
    have hsplit : cs.take 33 ++ cs.drop 33 = cs := List.take_append_drop 33 cs
    have hdlen : (cs.drop 33).length = cs.length - 33 := List.length_drop 33 cs
    obtain ⟨d, rest, hd⟩ : ∃ d rest, cs.drop 33 = d :: rest := by
      cases hdrop : cs.drop 33 with
      | nil => rw [hdrop] at hdlen; simp at hdlen; omega
      | cons d rest => exact ⟨d, rest, rfl⟩
    have htlen : (cs.take 33).length = 33 := by
      rw [List.length_take]; omega
    have hmem_take : ∀ c ∈ cs.take 33, ordinaryByte c := by
      intro c hc
      refine hord c ?_
      rw [← hsplit]; exact List.mem_append_left _ hc
    have hmem_drop : ∀ c ∈ cs.drop 33, ordinaryByte c := by
      intro c hc
      refine hord c ?_
      rw [← hsplit]; exact List.mem_append_right _ hc
    have hstep0 : frameStep .idle '$' = (.acc '$' [], none) := by
      rw [frameStep_idle, if_pos (Or.inl rfl)]
    have hfill := frameRun_acc_fill (cs.take 33) '$' []
      hmem_take (by simp [htlen])
    rw [List.nil_append] at hfill
    have hd_ord : ordinaryByte d := hmem_drop d (by rw [hd]; exact List.mem_cons_self d rest)
    have hstepd : frameStep (.acc '$' (cs.take 33)) d = (.idle, some .invalid) := by
      obtain ⟨h1, h2, h3, h4, h5⟩ := hd_ord
      rw [frameStep_acc, if_neg (by tauto), if_neg (by tauto), if_neg h5,
        if_pos (by rw [h33, htlen])]
    have hrest_ord : ∀ c ∈ rest, c ≠ '$' ∧ c ≠ '!' := by
      intro c hc
      have := hmem_drop c (by rw [hd]; exact List.mem_cons_of_mem d hc)
      exact ⟨this.1, this.2.1⟩
    have hskip := frameRun_idle_skip rest hrest_ord
    calc frameRun .idle ('$' :: cs)
        = frameRun .idle ('$' :: (cs.take 33 ++ (d :: rest))) := by rw [← hd, hsplit]
      _ = (.idle, [.invalid]) := by
          rw [frameRun_cons, hstep0]
          simp only []
          rw [frameRun_append, hfill]
          simp only []
          rw [frameRun_cons, hstepd]
          simp only []
          rw [hskip]
          simp

/-- Witness for C1: a run of 40 ordinary bytes stays within bounds, and a
sigil followed by 34 ordinary bytes is discarded as Invalid. -/
theorem c1_commandline_never_overflows_witness :
    bufLen (frameRun .idle (List.replicate 40 'A')).1 ≤ LINKBUS_MAX_COMMANDLINE_LENGTH ∧
    frameRun .idle ('$' :: List.replicate 34 'A') = (.idle, [.invalid]) :=
  ⟨c1_commandline_never_overflows.1 _,
   c1_commandline_never_overflows.2 (List.replicate 34 'A') (by decide) (by decide)⟩

/-! ## Buffer Pool.
Modelled from the spec: nextEmptyRxBuffer / nextEmptyTxBuffer are only
declared in linkbus.h; the acquire operation below follows spec section 4.1 —
acquire returns the next slot in pool order whose state is Empty (claiming
it, so a repeat acquisition without a release cannot return it again), or
fails (BufferExhausted) when no Empty slot exists. -/

/-- Modelled from the spec: acquire the next Empty slot in pool order,
claiming it; returns the slot index and the updated pool, or none
(BufferExhausted) when every slot is occupied. -/
def nextEmptyBuffer : List BufferState → Option (Nat × List BufferState)
  | [] => none
  | .EMPTY_BUFF :: rest => some (0, .FULL_BUFF :: rest)
  | .FULL_BUFF :: rest =>
    (nextEmptyBuffer rest).map fun p => (p.1 + 1, .FULL_BUFF :: p.2)

/-- Outcomes of n consecutive empty-slot acquisitions with no intervening
release: some index on success, none for a BufferExhausted failure. -/
def acquireSeq : List BufferState → Nat → List (Option Nat)
  | _, 0 => []
  | pool, n + 1 =>
    match nextEmptyBuffer pool with
    | some (i, pool') => some i :: acquireSeq pool' n
    | none => none :: acquireSeq pool n

/-- The Rx pool at system start: LINKBUS_NUMBER_OF_RX_MSG_BUFFERS (2) Empty slots. -/
def rxPoolInit : List BufferState :=
  List.replicate LINKBUS_NUMBER_OF_RX_MSG_BUFFERS .EMPTY_BUFF

/-- The Tx pool at system start: LINKBUS_NUMBER_OF_TX_MSG_BUFFERS (4) Empty slots. -/
def txPoolInit : List BufferState :=
  List.replicate LINKBUS_NUMBER_OF_TX_MSG_BUFFERS .EMPTY_BUFF

/-- C3: from an all-Empty pool with no intervening release, the first 2 Rx
acquisitions succeed and the 3rd fails with BufferExhausted (no slot
returned); the first 4 Tx acquisitions succeed and the 5th fails. -/
theorem c3_pool_exhaustion :
    acquireSeq rxPoolInit 3 = [some 0, some 1, none] ∧
    acquireSeq txPoolInit 5 = [some 0, some 1, some 2, some 3, none] := by
  exact ⟨by decide, by decide⟩

/-! ## Message Decoder.
Modelled from the spec: the decoder implementation is not among the sources;
the definitions below follow spec section 4.3 — the commandline text is split
on commas into a mnemonic and at most 3 fields; a field longer than
LINKBUS_MAX_MSG_FIELD_LENGTH - 1 (9) characters invalidates the message (the
spec's recommended policy); the mnemonic resolves through its character
encoding against the LBMessageID enum values (the fixed mapping in the
sources), unmatched mnemonics resolving to INVALID_MESSAGE; the type comes
from the sigil and terminator (`$`+`;` Command, `$`+`?` Query, `!` Reply). -/

/-- Split a commandline on commas into tokens (always at least one token). -/
def splitCommas : List Char → List (List Char)
  | [] => [[]]
  | c :: rest =>
    if c = ',' then [] :: splitCommas rest
    else
      match splitCommas rest with
      | t :: ts => (c :: t) :: ts
      | [] => [[c]]

/-- The mnemonic token and the field tokens of a commandline. -/
def tokensOf (body : List Char) : List Char × List (List Char) :=
  match splitCommas body with
  | [] => ([], [])
  | t :: ts => (t, ts)

/-- Whether a mnemonic's character encoding matches one of the LBMessageID
enum values (the fixed mnemonic-to-identifier mapping). -/
def mnemonicMatches (mn : List Char) : Bool :=
  match encodeMnemonic mn with
  | some v => decide (v ∈ validMessageIDs)
  | none => false

/-- Modelled from the spec: resolve a mnemonic to its message identifier,
INVALID_MESSAGE when it matches no LBMessageID enum value. -/
def resolveMnemonic (mn : List Char) : Nat :=
  match encodeMnemonic mn with
  | some v => if v ∈ validMessageIDs then v else INVALID_MESSAGE
  | none => INVALID_MESSAGE

/-- A decoded Rx message: type, identifier value and the three field texts. -/
structure RxMessage where
  type : LBMessageType
  id : Nat
  fields : List (List Char)
deriving DecidableEq, Repr

/-- Pad the decoded fields with empty texts up to
LINKBUS_MAX_MSG_NUMBER_OF_FIELDS, as the fixed-size fields array holds them. -/
def padFields (fs : List (List Char)) : List (List Char) :=
  fs ++ List.replicate (LINKBUS_MAX_MSG_NUMBER_OF_FIELDS - fs.length) []

/-- Modelled from the spec: decode a completed commandline (sigil, body text,
terminator) into an Rx message (section 4.3). -/
def decodeLine (sigil : Char) (body : List Char) (term : Char) : RxMessage :=
  let mn := (tokensOf body).1
  let fs := (tokensOf body).2
  if LINKBUS_MAX_MSG_NUMBER_OF_FIELDS < fs.length ∨
      (∃ f ∈ fs, LINKBUS_MAX_MSG_FIELD_LENGTH - 1 < f.length) then
    ⟨.LINKBUS_MSG_INVALID, INVALID_MESSAGE, padFields []⟩
  else
    ⟨(if sigil = '!' then .LINKBUS_MSG_REPLY
      else if term = '?' then .LINKBUS_MSG_QUERY
      else .LINKBUS_MSG_COMMAND),
     resolveMnemonic mn, padFields fs⟩

/-- Generic slot commit: place a value into the first free slot of a
fixed pool, or fail (BufferExhausted) when every slot is occupied. -/
def setFirstNone {α : Type} : List (Option α) → α → Option (List (Option α))
  | [], _ => none
  | none :: rest, a => some (some a :: rest)
  | some b :: rest, a => (setFirstNone rest a).map fun r => some b :: r

/-- The Rx message pool at system start: 2 free slots. -/
def rxMsgPoolInit : List (Option RxMessage) :=
  List.replicate LINKBUS_NUMBER_OF_RX_MSG_BUFFERS none

/-- The first occupied slot of a pool, as the consumer reads it. -/
def firstSome {α : Type} : List (Option α) → Option α
  | [] => none
  | some a :: _ => some a
  | none :: rest => firstSome rest

/-- C6 counterexample: decoding `$BND;` does NOT resolve BND to a real
message identifier — the LBMessageID enum has no BND member, so the decoded
identifier is the INVALID_MESSAGE sentinel (though the type is Command and
all three fields are empty). -/
theorem c6_bnd_cex :
    (decodeLine '$' ['B', 'N', 'D'] ';').id = INVALID_MESSAGE ∧
    mnemonicMatches ['B', 'N', 'D'] = false ∧
    encodeMnemonic ['B', 'N', 'D'] = some 7448 ∧
    validMessageIDs.contains 7448 = false := by
  exact ⟨by decide, by decide, by decide, by decide⟩

/-- C6 (amended): decoding the input line `$BND;` produces an Rx message of
type Command with all three fields empty and identifier INVALID_MESSAGE,
because BND is absent from the mnemonic-to-identifier mapping. -/
theorem c6_bnd_decodes_command_invalid_id :
    decodeLine '$' ['B', 'N', 'D'] ';' =
      ⟨.LINKBUS_MSG_COMMAND, INVALID_MESSAGE, [[], [], []]⟩ := by
  decide

/-- C7: a well-framed commandline whose mnemonic matches no entry of the
fixed mapping still decodes to an Rx message carrying the INVALID_MESSAGE
identifier, and committing it to the Rx pool succeeds and surfaces it to the
consumer — it is never silently dropped. -/
theorem c7_unrecognized_surfaced (sigil term : Char) (body : List Char)
    (hm : mnemonicMatches (tokensOf body).1 = false)
    (hfc : (tokensOf body).2.length ≤ LINKBUS_MAX_MSG_NUMBER_OF_FIELDS)
    (hfl : ∀ f ∈ (tokensOf body).2, f.length ≤ LINKBUS_MAX_MSG_FIELD_LENGTH - 1) :
    (decodeLine sigil body term).id = INVALID_MESSAGE ∧
    setFirstNone rxMsgPoolInit (decodeLine sigil body term) =
      some [some (decodeLine sigil body term), none] ∧
    firstSome [some (decodeLine sigil body term), none] =
      some (decodeLine sigil body term) := by
  have hres : resolveMnemonic (tokensOf body).1 = INVALID_MESSAGE := by
    unfold resolveMnemonic
    unfold mnemonicMatches at hm
    cases henc : encodeMnemonic (tokensOf body).1 with
    | none => rfl
    | some v =>
      rw [henc] at hm
      have hm' : decide (v ∈ validMessageIDs) = false := hm
      rw [decide_eq_false_iff_not] at hm'
      show (if v ∈ validMessageIDs then v else INVALID_MESSAGE) = INVALID_MESSAGE
      rw [if_neg hm']
  have hcond : ¬(LINKBUS_MAX_MSG_NUMBER_OF_FIELDS < (tokensOf body).2.length ∨
      (∃ f ∈ (tokensOf body).2, LINKBUS_MAX_MSG_FIELD_LENGTH - 1 < f.length)) := by
    push_neg
    exact ⟨hfc, fun f hf => hfl f hf⟩
  constructor
  · unfold decodeLine
    rw [if_neg hcond]
    exact hres
  · exact ⟨rfl, rfl⟩

/-- Witness for C7 at the concrete unrecognized line `$XYZ;`. -/
theorem c7_unrecognized_surfaced_witness :
    (decodeLine '$' ['X', 'Y', 'Z'] ';').id = INVALID_MESSAGE ∧
    setFirstNone rxMsgPoolInit (decodeLine '$' ['X', 'Y', 'Z'] ';') =
      some [some (decodeLine '$' ['X', 'Y', 'Z'] ';'), none] ∧
    firstSome [some (decodeLine '$' ['X', 'Y', 'Z'] ';'), none] =
      some (decodeLine '$' ['X', 'Y', 'Z'] ';') :=
  c7_unrecognized_surfaced '$' ';' ['X', 'Y', 'Z']
    (by decide) (by decide) (by decide)

/-! ## Transmit Scheduler.
Modelled from the spec: nextEmptyTxBuffer / nextFullTxBuffer /
linkbus_end_tx / linkbusTxInProgress are only declared in linkbus.h; the
model below follows spec sections 4.1 and 4.4 — producers commit a message
into the next free Tx slot, tagging it with an increasing commit sequence
number (the commit order over the pool); the scheduler, when no
transmission is in flight and the minimum interval since the last
transmission start has elapsed, acquires the OLDEST Full slot (smallest
commit sequence, FIFO across the pool), starts its physical transmission
and records the start time; the completion callback clears the in-flight
flag and frees the slot. -/

/-- The Full entries of a Tx slot pool: each holds its commit sequence
number and its message text. -/
def residents (pool : List (Option (Nat × List Char))) : List (Nat × List Char) :=
  pool.filterMap id

/-- Choose between the head entry e of a pool and the best acquisition from
the rest, keeping the one with the smaller (older) commit sequence. -/
def pickOlder (e : Nat × List Char) (rest : List (Option (Nat × List Char))) :
    Option ((Nat × List Char) × List (Option (Nat × List Char))) →
      (Nat × List Char) × List (Option (Nat × List Char))
  | none => (e, none :: rest)
  | some (p, r) => if e.1 ≤ p.1 then (e, none :: rest) else (p, some e :: r)

/-- Modelled from the spec: acquire the oldest Full Tx slot (smallest commit
sequence number), returning its entry and the pool with that slot freed. -/
def nextFullTxBuffer :
    List (Option (Nat × List Char)) →
      Option ((Nat × List Char) × List (Option (Nat × List Char)))
  | [] => none
  | none :: rest => (nextFullTxBuffer rest).map fun p => (p.1, none :: p.2)
  | some e :: rest => some (pickOlder e rest (nextFullTxBuffer rest))

/-- Scheduler state: the Tx slot pool, the next commit sequence number, the
transmission-in-flight flag, and the last transmission start time. -/
structure SchedState where
  pool : List (Option (Nat × List Char))
  nextSeq : Nat
  inFlight : Bool
  lastStart : Option Nat
deriving DecidableEq, Repr

/-- The scheduler at system start: 4 free Tx slots, nothing sent yet. -/
def initSched : SchedState :=
  ⟨List.replicate LINKBUS_NUMBER_OF_TX_MSG_BUFFERS none, 0, false, none⟩

/-- Whether the minimum inter-transmission interval has elapsed at time t
since the last transmission start. -/
def intervalOk : Option Nat → Nat → Bool
  | none, _ => true
  | some t0, t => decide (t0 + LINKBUS_MIN_TX_INTERVAL_MS ≤ t)

/-- Modelled from the spec: one scheduling tick at time t (section 4.4):
when idle, past the minimum interval and a Full slot exists, start
transmitting the oldest Full slot, recording the start; the output is the
started transmission (start time, commit sequence, message). -/
def trySendNext (st : SchedState) (t : Nat) :
    SchedState × Option (Nat × Nat × List Char) :=
  if st.inFlight then (st, none)
  else if intervalOk st.lastStart t then
    match nextFullTxBuffer st.pool with
    | some (e, pool') => (⟨pool', st.nextSeq, true, some t⟩, some (t, e.1, e.2))
    | none => (st, none)
  else (st, none)

/-- An event of a scheduler execution: a producer commits a Tx message, the
scheduler is ticked at a time, or a physical transmission completes. -/
inductive LbEvent where
  | commitTx (m : List Char)
  | trySend (t : Nat)
  | endTx
deriving DecidableEq, Repr

/-- Run a list of events; yields the final state, the started transmissions
(start time, commit sequence, message) in start order, and the accepted
commits in commit order. -/
def runSched :
    SchedState → List LbEvent →
      SchedState × List (Nat × Nat × List Char) × List (List Char)
  | st, [] => (st, [], [])
  | st, .commitTx m :: evs =>
    match setFirstNone st.pool (st.nextSeq, m) with
    | some pool' =>
      ((runSched ⟨pool', st.nextSeq + 1, st.inFlight, st.lastStart⟩ evs).1,
       (runSched ⟨pool', st.nextSeq + 1, st.inFlight, st.lastStart⟩ evs).2.1,
       m :: (runSched ⟨pool', st.nextSeq + 1, st.inFlight, st.lastStart⟩ evs).2.2)
    | none => runSched st evs
  | st, .trySend t :: evs =>
    ((runSched (trySendNext st t).1 evs).1,
     (trySendNext st t).2.toList ++ (runSched (trySendNext st t).1 evs).2.1,
     (runSched (trySendNext st t).1 evs).2.2)
  | st, .endTx :: evs => runSched ⟨st.pool, st.nextSeq, false, st.lastStart⟩ evs

lemma filterMap_id_cons_some {α : Type} (e : α) (l : List (Option α)) :
    (some e :: l).filterMap id = e :: l.filterMap id := rfl

lemma filterMap_id_cons_none {α : Type} (l : List (Option α)) :
    ((none : Option α) :: l).filterMap id = l.filterMap id := rfl

lemma setFirstNone_nil {α : Type} (a : α) :
    setFirstNone [] a = none := rfl

lemma setFirstNone_cons_none {α : Type} (a : α) (rest : List (Option α)) :
    setFirstNone (none :: rest) a = some (some a :: rest) := rfl

lemma setFirstNone_cons_some {α : Type} (a b : α) (rest : List (Option α)) :
    setFirstNone (some b :: rest) a =
      (setFirstNone rest a).map fun r => some b :: r := rfl

lemma nextFullTxBuffer_nil : nextFullTxBuffer [] = none := rfl

lemma nextFullTxBuffer_cons_none (rest : List (Option (Nat × List Char))) :
    nextFullTxBuffer (none :: rest) =
      (nextFullTxBuffer rest).map fun p => (p.1, none :: p.2) := rfl

lemma nextFullTxBuffer_cons_some (e : Nat × List Char)
    (rest : List (Option (Nat × List Char))) :
    nextFullTxBuffer (some e :: rest) =
      some (pickOlder e rest (nextFullTxBuffer rest)) := rfl

lemma pickOlder_none (e : Nat × List Char) (rest : List (Option (Nat × List Char))) :
    pickOlder e rest none = (e, none :: rest) := rfl

lemma pickOlder_some (e : Nat × List Char) (rest : List (Option (Nat × List Char)))
    (p : Nat × List Char) (r : List (Option (Nat × List Char))) :
    pickOlder e rest (some (p, r)) =
      if e.1 ≤ p.1 then (e, none :: rest) else (p, some e :: r) := rfl

lemma setFirstNone_perm {α : Type} :
    ∀ (l : List (Option α)) (a : α) (l' : List (Option α)),
      setFirstNone l a = some l' →
      (l'.filterMap id).Perm (a :: l.filterMap id) := by
  intro l
  induction l with
  | nil => intro a l' h; rw [setFirstNone_nil] at h; exact absurd h (by simp)
  | cons o rest ih =>
    intro a l' h
    cases o with
    | none =>
      rw [setFirstNone_cons_none, Option.some.injEq] at h
      subst h
      rw [filterMap_id_cons_some, filterMap_id_cons_none]
    | some b =>
      rw [setFirstNone_cons_some, Option.map_eq_some'] at h
      obtain ⟨r, hr, hl'⟩ := h
      subst hl'
      rw [filterMap_id_cons_some, filterMap_id_cons_some]
      exact ((ih a r hr).cons b).trans (List.Perm.swap a b _)

lemma nextFullTxBuffer_none_residents :
    ∀ l, nextFullTxBuffer l = none → l.filterMap id = [] := by
  intro l
  induction l with
  | nil => intro _; rfl
  | cons o rest ih =>
    intro h
    cases o with
    | none =>
      rw [nextFullTxBuffer_cons_none, Option.map_eq_none'] at h
      rw [filterMap_id_cons_none]
      exact ih h
    | some e =>
      rw [nextFullTxBuffer_cons_some] at h
      exact absurd h (by simp)

lemma nextFullTxBuffer_some_spec :
    ∀ (l : List (Option (Nat × List Char))) (e : Nat × List Char)
      (l' : List (Option (Nat × List Char))),
      nextFullTxBuffer l = some (e, l') →
      (l.filterMap id).Perm (e :: l'.filterMap id) ∧
      ∀ e' ∈ l.filterMap id, e.1 ≤ e'.1 := by
  intro l
  induction l with
  | nil => intro e l' h; rw [nextFullTxBuffer_nil] at h; exact absurd h (by simp)
  | cons o rest ih =>
    intro e l' h
    cases o with
    | none =>
      rw [nextFullTxBuffer_cons_none, Option.map_eq_some'] at h
      obtain ⟨⟨e0, r0⟩, hr, hpair⟩ := h
      have he : e0 = e := congrArg Prod.fst hpair
      have hl' : (none :: r0 : List (Option (Nat × List Char))) = l' :=
        congrArg Prod.snd hpair
      subst he; subst hl'
      obtain ⟨hperm, hmin⟩ := ih e0 r0 hr
      rw [filterMap_id_cons_none]
      rw [filterMap_id_cons_none]
      exact ⟨hperm, hmin⟩
    | some b =>
      rw [nextFullTxBuffer_cons_some] at h
      cases hr : nextFullTxBuffer rest with
      | none =>
        rw [hr, pickOlder_none, Option.some.injEq, Prod.mk.injEq] at h
        obtain ⟨he, hl'⟩ := h
        subst he; subst hl'
        have hres : rest.filterMap id = [] := nextFullTxBuffer_none_residents rest hr
        rw [filterMap_id_cons_some, filterMap_id_cons_none, hres]
        constructor
        · exact List.Perm.refl _
        · intro e' he'
          rw [List.mem_singleton] at he'
          subst he'
          exact le_refl _
      | some pr =>
        obtain ⟨p, r⟩ := pr
        rw [hr, pickOlder_some] at h
        obtain ⟨hperm, hmin⟩ := ih p r hr
        by_cases hle : b.1 ≤ p.1
        · rw [if_pos hle, Option.some.injEq, Prod.mk.injEq] at h
          obtain ⟨he, hl'⟩ := h
          subst he; subst hl'
          rw [filterMap_id_cons_some, filterMap_id_cons_none]
          constructor
          · exact List.Perm.refl _
          · intro e' he'
            rw [List.mem_cons] at he'
            rcases he' with he' | he'
            · subst he'; exact le_refl _
            · exact le_trans hle (hmin e' he')
        · rw [if_neg hle, Option.some.injEq, Prod.mk.injEq] at h
          obtain ⟨he, hl'⟩ := h
          subst he; subst hl'
          rw [filterMap_id_cons_some, filterMap_id_cons_some]
          constructor
          · exact (hperm.cons b).trans (List.Perm.swap _ _ _)
          · intro e' he'
            rw [List.mem_cons] at he'
            rcases he' with he' | he'
            · subst he'; omega
            · exact hmin e' he'

lemma runSched_nil (st : SchedState) : runSched st [] = (st, [], []) := rfl

lemma runSched_commit_some (st : SchedState) (m : List Char) (evs : List LbEvent)
    (pool' : List (Option (Nat × List Char)))
    (h : setFirstNone st.pool (st.nextSeq, m) = some pool') :
    runSched st (.commitTx m :: evs) =
      ((runSched ⟨pool', st.nextSeq + 1, st.inFlight, st.lastStart⟩ evs).1,
       (runSched ⟨pool', st.nextSeq + 1, st.inFlight, st.lastStart⟩ evs).2.1,
       m :: (runSched ⟨pool', st.nextSeq + 1, st.inFlight, st.lastStart⟩ evs).2.2) := by
  have h0 : runSched st (.commitTx m :: evs) =
      match setFirstNone st.pool (st.nextSeq, m) with
      | some pool' =>
        ((runSched ⟨pool', st.nextSeq + 1, st.inFlight, st.lastStart⟩ evs).1,
         (runSched ⟨pool', st.nextSeq + 1, st.inFlight, st.lastStart⟩ evs).2.1,
         m :: (runSched ⟨pool', st.nextSeq + 1, st.inFlight, st.lastStart⟩ evs).2.2)
      | none => runSched st evs := rfl
  rw [h0, h]

lemma runSched_commit_none (st : SchedState) (m : List Char) (evs : List LbEvent)
    (h : setFirstNone st.pool (st.nextSeq, m) = none) :
    runSched st (.commitTx m :: evs) = runSched st evs := by
  have h0 : runSched st (.commitTx m :: evs) =
      match setFirstNone st.pool (st.nextSeq, m) with
      | some pool' =>
        ((runSched ⟨pool', st.nextSeq + 1, st.inFlight, st.lastStart⟩ evs).1,
         (runSched ⟨pool', st.nextSeq + 1, st.inFlight, st.lastStart⟩ evs).2.1,
         m :: (runSched ⟨pool', st.nextSeq + 1, st.inFlight, st.lastStart⟩ evs).2.2)
      | none => runSched st evs := rfl
  rw [h0, h]

lemma runSched_trySend (st : SchedState) (t : Nat) (evs : List LbEvent) :
    runSched st (.trySend t :: evs) =
      ((runSched (trySendNext st t).1 evs).1,
       (trySendNext st t).2.toList ++ (runSched (trySendNext st t).1 evs).2.1,
       (runSched (trySendNext st t).1 evs).2.2) := rfl

lemma runSched_endTx (st : SchedState) (evs : List LbEvent) :
    runSched st (.endTx :: evs) =
      runSched ⟨st.pool, st.nextSeq, false, st.lastStart⟩ evs := rfl

lemma trySendNext_inFlight (st : SchedState) (t : Nat) (h : st.inFlight = true) :
    trySendNext st t = (st, none) := by
  simp [trySendNext, h]

lemma trySendNext_notOk (st : SchedState) (t : Nat) (h1 : st.inFlight = false)
    (h2 : intervalOk st.lastStart t = false) :
    trySendNext st t = (st, none) := by
  simp [trySendNext, h1, h2]

lemma trySendNext_noFull (st : SchedState) (t : Nat) (h1 : st.inFlight = false)
    (h2 : intervalOk st.lastStart t = true)
    (h3 : nextFullTxBuffer st.pool = none) :
    trySendNext st t = (st, none) := by
  simp [trySendNext, h1, h2, h3]

lemma trySendNext_send (st : SchedState) (t : Nat) (e : Nat × List Char)
    (pool' : List (Option (Nat × List Char)))
    (h1 : st.inFlight = false) (h2 : intervalOk st.lastStart t = true)
    (h3 : nextFullTxBuffer st.pool = some (e, pool')) :
    trySendNext st t =
      (⟨pool', st.nextSeq, true, some t⟩, some (t, e.1, e.2)) := by
  simp [trySendNext, h1, h2, h3]

/-- Scheduler invariant relating a state to the accepted-commit history
acc0 (a resident entry with commit sequence q holds message acc0[q]) and a
lower bound lb on the resident commit sequences (everything below lb has
already been transmitted). -/
def SchedInv (st : SchedState) (acc0 : List (List Char)) (lb : Nat) : Prop :=
  st.nextSeq = acc0.length ∧ lb ≤ acc0.length ∧
  (∀ e ∈ st.pool.filterMap id, acc0[e.1]? = some e.2 ∧ lb ≤ e.1) ∧
  (st.pool.filterMap id).Pairwise (fun a b => a.1 ≠ b.1)

lemma seq_ne_symm :
    ∀ {x y : Nat × List Char}, x.1 ≠ y.1 → y.1 ≠ x.1 :=
  fun h => Ne.symm h

/-- The committed-before / transmitted-after ordering of a scheduler run:
every transmission carries a commit sequence at least lb, transmissions are
started in strictly increasing commit-sequence order, and each transmitted
message is exactly the message accepted at its commit sequence. -/
lemma runSched_ordered :
    ∀ (evs : List LbEvent) (st : SchedState) (acc0 : List (List Char)) (lb : Nat),
      SchedInv st acc0 lb →
      (∀ s ∈ (runSched st evs).2.1, lb ≤ s.2.1) ∧
      (runSched st evs).2.1.Pairwise (fun a b => a.2.1 < b.2.1) ∧
      (∀ s ∈ (runSched st evs).2.1,
        (acc0 ++ (runSched st evs).2.2)[s.2.1]? = some s.2.2) := by
  intro evs
  induction evs with
  | nil =>
    intro st acc0 lb _
    rw [runSched_nil]
    exact ⟨by simp, by simp, by simp⟩
  | cons ev evs ih =>
    intro st acc0 lb hinv
    obtain ⟨hseq, hlb, hres, hpair⟩ := hinv
    cases ev with
    | commitTx m =>
      cases hset : setFirstNone st.pool (st.nextSeq, m) with
      | none =>
        rw [runSched_commit_none st m evs hset]
        exact ih st acc0 lb ⟨hseq, hlb, hres, hpair⟩
      | some pool' =>
        rw [runSched_commit_some st m evs pool' hset]
        have hperm := setFirstNone_perm st.pool (st.nextSeq, m) pool' hset
        have hinv1 : SchedInv ⟨pool', st.nextSeq + 1, st.inFlight, st.lastStart⟩
            (acc0 ++ [m]) lb := by
          refine ⟨?_, ?_, ?_, ?_⟩
          · simp [hseq]
          · simp
            omega
          · intro e he
            have he' : e ∈ ((st.nextSeq, m) :: st.pool.filterMap id) :=
              (hperm.mem_iff).1 he
            rcases List.mem_cons.1 he' with he' | he'
            · subst he'
              refine ⟨?_, ?_⟩
              · show (acc0 ++ [m])[st.nextSeq]? = some m
                rw [hseq]
                exact List.getElem?_concat_length acc0 m
              · show lb ≤ st.nextSeq
                omega
            · obtain ⟨hget, hlbe⟩ := hres e he'
              have hlt : e.1 < acc0.length := (List.getElem?_eq_some.1 hget).1
              exact ⟨by rw [List.getElem?_append_left hlt]; exact hget, hlbe⟩
          · refine (hperm.pairwise_iff seq_ne_symm).2 ?_
            refine List.pairwise_cons.2 ⟨?_, hpair⟩
            intro e' he'
            have hget := (hres e' he').1
            have hlt : e'.1 < acc0.length := (List.getElem?_eq_some.1 hget).1
            show st.nextSeq ≠ e'.1
            omega
        obtain ⟨ih1, ih2, ih3⟩ := ih _ (acc0 ++ [m]) lb hinv1
        refine ⟨ih1, ih2, ?_⟩
        intro s hs
        have := ih3 s hs
        rw [List.append_cons]
        exact this
    | trySend t =>
      cases hf : st.inFlight with
      | true =>
        rw [runSched_trySend, trySendNext_inFlight st t hf]
        simpa using ih st acc0 lb ⟨hseq, hlb, hres, hpair⟩
      | false =>
        cases hok : intervalOk st.lastStart t with
        | false =>
          rw [runSched_trySend, trySendNext_notOk st t hf hok]
          simpa using ih st acc0 lb ⟨hseq, hlb, hres, hpair⟩
        | true =>
          cases hnf : nextFullTxBuffer st.pool with
          | none =>
            rw [runSched_trySend, trySendNext_noFull st t hf hok hnf]
            simpa using ih st acc0 lb ⟨hseq, hlb, hres, hpair⟩
          | some pr =>
            obtain ⟨e, pool'⟩ := pr
            rw [runSched_trySend, trySendNext_send st t e pool' hf hok hnf]
            obtain ⟨hperm, hmin⟩ := nextFullTxBuffer_some_spec st.pool e pool' hnf
            have he_mem : e ∈ st.pool.filterMap id :=
              hperm.mem_iff.2 (List.mem_cons_self _ _)
            obtain ⟨hget, hlbe⟩ := hres e he_mem
            have helt : e.1 < acc0.length := (List.getElem?_eq_some.1 hget).1
            have hpair' : ((e :: pool'.filterMap id)).Pairwise
                (fun a b => a.1 ≠ b.1) :=
              (hperm.pairwise_iff seq_ne_symm).1 hpair
            have hinv1 : SchedInv ⟨pool', st.nextSeq, true, some t⟩ acc0 (e.1 + 1) := by
              refine ⟨hseq, by omega, ?_, (List.pairwise_cons.1 hpair').2⟩
              intro e' he'
              have he'' : e' ∈ st.pool.filterMap id :=
                hperm.mem_iff.2 (List.mem_cons_of_mem _ he')
              obtain ⟨hg, _⟩ := hres e' he''
              refine ⟨hg, ?_⟩
              have hne : e.1 ≠ e'.1 := (List.pairwise_cons.1 hpair').1 e' he'
              have hle : e.1 ≤ e'.1 := hmin e' he''
              omega
            obtain ⟨ih1, ih2, ih3⟩ := ih _ acc0 (e.1 + 1) hinv1
            simp only [Option.toList_some, List.singleton_append]
            refine ⟨?_, ?_, ?_⟩
            · intro s hs
              rcases List.mem_cons.1 hs with h | h
              · subst h
                exact hlbe
              · have := ih1 s h
                omega
            · refine List.pairwise_cons.2 ⟨?_, ih2⟩
              intro s hs
              have := ih1 s hs
              show e.1 < s.2.1
              omega
            · intro s hs
              rcases List.mem_cons.1 hs with h | h
              · subst h
                show (acc0 ++ _)[e.1]? = some e.2
                rw [List.getElem?_append_left helt]
                exact hget
              · exact ih3 s h
    | endTx =>
      rw [runSched_endTx]
      exact ih ⟨st.pool, st.nextSeq, false, st.lastStart⟩ acc0 lb
        ⟨hseq, hlb, hres, hpair⟩

lemma schedInv_init : SchedInv initSched [] 0 := by
  have hres : initSched.pool.filterMap id = ([] : List (Nat × List Char)) := rfl
  refine ⟨rfl, by simp, ?_, ?_⟩
  · intro e he
    rw [hres] at he
    exact absurd he (List.not_mem_nil e)
  · rw [hres]
    exact List.Pairwise.nil

/-- C2: FIFO over commit order. For every execution, the transmissions the
scheduler starts (acquired via nextFullTxBuffer) carry strictly increasing
commit sequence numbers — so messages marked Full in order A, B, C start
transmission in order A, B, C even when slot indices are reused out of
sequence — and each started transmission carries exactly the message that
was accepted at that position of the commit order. -/
theorem c2_tx_fifo_commit_order (evs : List LbEvent) :
    (runSched initSched evs).2.1.Pairwise (fun a b => a.2.1 < b.2.1) ∧
    ∀ s ∈ (runSched initSched evs).2.1,
      (runSched initSched evs).2.2[s.2.1]? = some s.2.2 := by
  obtain ⟨_, h2, h3⟩ := runSched_ordered evs initSched [] 0 schedInv_init
  refine ⟨h2, ?_⟩
  intro s hs
  have := h3 s hs
  simpa using this

/-- An example execution: two commits, a transmission, its completion, and a
second transmission 200 ms later. -/
def fifoExampleEvents : List LbEvent :=
  [.commitTx ['A'], .commitTx ['B'], .trySend 0, .endTx, .trySend 200]

/-- Witness for C2 on the example execution: the two transmissions start in
commit order and the second one carries the second committed message. -/
theorem c2_tx_fifo_commit_order_witness :
    (runSched initSched fifoExampleEvents).2.1.Pairwise (fun a b => a.2.1 < b.2.1) ∧
    (runSched initSched fifoExampleEvents).2.2[(1 : Nat)]? = some ['B'] :=
  ⟨(c2_tx_fifo_commit_order fifoExampleEvents).1,
   (c2_tx_fifo_commit_order fifoExampleEvents).2 (200, 1, ['B']) (by decide)⟩

/-- Every transmission of a run starts at least the minimum interval after
the recorded last start, and consecutive transmission starts are pairwise
separated by at least the minimum interval. -/
lemma runSched_spacing :
    ∀ (evs : List LbEvent) (st : SchedState),
      (∀ s ∈ (runSched st evs).2.1, ∀ t0, st.lastStart = some t0 →
        t0 + LINKBUS_MIN_TX_INTERVAL_MS ≤ s.1) ∧
      (runSched st evs).2.1.Pairwise
        (fun a b => a.1 + LINKBUS_MIN_TX_INTERVAL_MS ≤ b.1) := by
  intro evs
  induction evs with
  | nil =>
    intro st
    rw [runSched_nil]
    exact ⟨by simp, by simp⟩
  | cons ev evs ih =>
    intro st
    cases ev with
    | commitTx m =>
      cases hset : setFirstNone st.pool (st.nextSeq, m) with
      | none =>
        rw [runSched_commit_none st m evs hset]
        exact ih st
      | some pool' =>
        rw [runSched_commit_some st m evs pool' hset]
        exact ih ⟨pool', st.nextSeq + 1, st.inFlight, st.lastStart⟩
    | trySend t =>
      cases hf : st.inFlight with
      | true =>
        rw [runSched_trySend, trySendNext_inFlight st t hf]
        simpa using ih st
      | false =>
        cases hok : intervalOk st.lastStart t with
        | false =>
          rw [runSched_trySend, trySendNext_notOk st t hf hok]
          simpa using ih st
        | true =>
          cases hnf : nextFullTxBuffer st.pool with
          | none =>
            rw [runSched_trySend, trySendNext_noFull st t hf hok hnf]
            simpa using ih st
          | some pr =>
            obtain ⟨e, pool'⟩ := pr
            rw [runSched_trySend, trySendNext_send st t e pool' hf hok hnf]
            obtain ⟨ih1, ih2⟩ := ih ⟨pool', st.nextSeq, true, some t⟩
            have ih1' : ∀ s ∈ (runSched ⟨pool', st.nextSeq, true, some t⟩ evs).2.1,
                t + LINKBUS_MIN_TX_INTERVAL_MS ≤ s.1 := fun s hs => ih1 s hs t rfl
            simp only [Option.toList_some, List.singleton_append]
            refine ⟨?_, ?_⟩
            · intro s hs t0 ht0
              have hok' : t0 + LINKBUS_MIN_TX_INTERVAL_MS ≤ t := by
                rw [ht0] at hok
                exact of_decide_eq_true hok
              rcases List.mem_cons.1 hs with h | h
              · subst h
                exact hok'
              · have := ih1' s h
                omega
            · refine List.pairwise_cons.2 ⟨?_, ih2⟩
              intro s hs
              exact ih1' s hs
    | endTx =>
      rw [runSched_endTx]
      exact ih ⟨st.pool, st.nextSeq, false, st.lastStart⟩

/-- C8: minimum transmit spacing. In every execution, any two consecutively
started physical transmissions have start times separated by at least
LINKBUS_MIN_TX_INTERVAL_MS = 100 ms — back-to-back transmissions are never
started closer together than that. -/
theorem c8_min_tx_spacing (evs : List LbEvent) :
    List.Chain' (fun a b => a.1 + LINKBUS_MIN_TX_INTERVAL_MS ≤ b.1)
      (runSched initSched evs).2.1 :=
  ((runSched_spacing evs initSched).2).chain'

end Linkbus
